import Mathlib

/-!
Verification development for a theater show-listing scraper.

The Python sources are embedded shallowly over `List Char`:
pure string helpers become Lean functions, the `Show` dataclass becomes a
structure with an explicit smart constructor mirroring `__post_init__`,
and the exception boundary of `BaseScraper.run` becomes an `Except` match.
Machine text is modelled as `List Char`; the Python `str` methods used by
the sources (`strip`, `replace`, `lower`, `in`, `find`, slicing) are given
direct list-level counterparts.
-/

/-- Named characters, keeping quotation characters out of literals. -/
def dquote : Char := Char.ofNat 34

def squote : Char := Char.ofNat 39

def bslash : Char := Char.ofNat 92

def lbrace : Char := Char.ofNat 123

def rbrace : Char := Char.ofNat 125

def endash : Char := Char.ofNat 8211

/-- The whitespace class of Python regular expressions and of `str.strip`,
restricted to ASCII: space, tab, newline, carriage return, vertical tab,
form feed. -/
def isWs (c : Char) : Bool :=
  c = ' ' || c = Char.ofNat 9 || c = Char.ofNat 10 || c = Char.ofNat 13 ||
  c = Char.ofNat 11 || c = Char.ofNat 12

/-- Python substring membership `needle in hay`. -/
def isSubstring (needle : List Char) : List Char → Bool
  | [] => needle.isPrefixOf []
  | c :: cs => needle.isPrefixOf (c :: cs) || isSubstring needle cs

/-- Embedding of `re.sub` applied as `(r'\s+', ' ', text)`: every maximal
whitespace run becomes one space, emitted at the final character of the
run. -/
def collapse : List Char → List Char
  | [] => []
  | [c] => if isWs c then [' '] else [c]
  | c :: d :: rest =>
    if isWs c && isWs d then collapse (d :: rest)
    else if isWs c then ' ' :: collapse (d :: rest)
    else c :: collapse (d :: rest)

/-- Python `str.strip()`: drop leading and trailing whitespace. -/
def strip (l : List Char) : List Char :=
  (l.dropWhile isWs).rdropWhile isWs

/-- Worker for Python `str.replace(pat, rep)`: scans left to right,
replaces non-overlapping occurrences, resumes after each replacement.  The
fuel argument only drives termination; each step consumes at least one
input character, so `l.length` fuel is always enough. -/
def replaceAllGo (pat rep : List Char) : Nat → List Char → List Char
  | 0, l => l
  | _ + 1, [] => []
  | fuel + 1, c :: cs =>
    if pat ≠ [] ∧ pat.isPrefixOf (c :: cs) then
      rep ++ replaceAllGo pat rep fuel ((c :: cs).drop pat.length)
    else
      c :: replaceAllGo pat rep fuel cs

/-- Python `str.replace(pat, rep)`. -/
def replaceAll (pat rep l : List Char) : List Char :=
  replaceAllGo pat rep l.length l

/-- Embedding of `clean_text` from `src/scraper/utils/parsing.py`: collapse
whitespace runs, trim, then decode a fixed list of HTML entities, in
source order. -/
def clean_text (t : List Char) : List Char :=
  if t = [] then []
  else
    let t1 := strip (collapse t)
    let t2 := replaceAll "&amp;".toList "&".toList t1
    let t3 := replaceAll "&nbsp;".toList " ".toList t2
    let t4 := replaceAll "&quot;".toList [dquote] t3
    let t5 := replaceAll "&#8217;".toList [squote] t4
    let t6 := replaceAll "&#8220;".toList [dquote] t5
    replaceAll "&#8221;".toList [dquote] t6

def digitChar (n : Nat) : Char := Char.ofNat (48 + n)

def pad2 (n : Nat) : List Char := [digitChar (n / 10 % 10), digitChar (n % 10)]

def pad4 (n : Nat) : List Char :=
  [digitChar (n / 1000 % 10), digitChar (n / 100 % 10), digitChar (n / 10 % 10),
   digitChar (n % 10)]

/-- Embedding of `date.isoformat()` for a year-month-day triple:
`YYYY-MM-DD`. -/
def isoDate (y m d : Nat) : List Char := pad4 y ++ '-' :: pad2 m ++ '-' :: pad2 d

def digitsToNat (ds : List Char) : Nat :=
  ds.foldl (fun a c => a * 10 + (c.toNat - 48)) 0

/-- Month vocabulary of the external date parser: full names first so that
a full name is never truncated to its three-letter abbreviation. -/
def monthNames : List (List Char × Nat) :=
  [("january".toList, 1), ("february".toList, 2), ("march".toList, 3),
   ("april".toList, 4), ("may".toList, 5), ("june".toList, 6),
   ("july".toList, 7), ("august".toList, 8), ("september".toList, 9),
   ("october".toList, 10), ("november".toList, 11), ("december".toList, 12),
   ("jan".toList, 1), ("feb".toList, 2), ("mar".toList, 3), ("apr".toList, 4),
   ("jun".toList, 6), ("jul".toList, 7), ("aug".toList, 8), ("sep".toList, 9),
   ("oct".toList, 10), ("nov".toList, 11), ("dec".toList, 12)]

def matchMonth (t : List Char) : Option (Nat × List Char) :=
  match monthNames.find? (fun p => p.1.isPrefixOf t) with
  | some (name, m) => some (m, t.drop name.length)
  | none => none

/-- Modelled from the spec: `parseDate` (`parse_date` in
`src/scraper/utils/parsing.py`) delegates to the external `dateutil` fuzzy
parser, which the spec describes as fuzzy-parsing a single date expression
into an ISO calendar date, returning none on any parse failure.  The
external parser fills fields missing from the text from the current date;
the current year is made explicit here as the `todayYear` argument.  The
model recognizes the `MonthName day [, year]` shapes the repository feeds
it, with a four-digit year and a 1-31 day. -/
def parse_date (todayYear : Nat) (s : List Char) : Option (List Char) :=
  if s = [] then none
  else
    let t := (strip s).map Char.toLower
    match matchMonth t with
    | none => none
    | some (m, rest) =>
      let ws1 := rest.takeWhile isWs
      if ws1 = [] then none
      else
        let r1 := rest.drop ws1.length
        let ds := r1.takeWhile Char.isDigit
        if ds = [] || 2 < ds.length then none
        else
          let day := digitsToNat ds
          if day = 0 || 31 < day then none
          else
            let r2 := r1.drop ds.length
            if r2 = [] then some (isoDate todayYear m day)
            else
              let r3 := r2.dropWhile isWs
              let r4 := if r3.head? = some ',' then (r3.drop 1).dropWhile isWs else r3
              let ys := r4.takeWhile Char.isDigit
              if ys.length = 4 && r4.drop 4 = [] then
                some (isoDate (digitsToNat ys) m day)
              else none

/-- The ordered range-separator list of `parse_date_range`
(`src/scraper/utils/parsing.py`, line 51). -/
def separators : List (List Char) :=
  [" to ".toList, " - ".toList, " – ".toList, " through ".toList,
   "–".toList, "-".toList]

/-- Python `s.split(sep, 1)`: the text before the first occurrence of
`sep` and the text after it. -/
def splitOnFirst (sep : List Char) : List Char → List Char × List Char
  | [] => ([], [])
  | c :: cs =>
    if sep.isPrefixOf (c :: cs) then ([], (c :: cs).drop sep.length)
    else
      let p := splitOnFirst sep cs
      (c :: p.1, p.2)

/-- Embedding of `parse_date_range` from `src/scraper/utils/parsing.py`:
try the separators in order; on the first one occurring in the text, split
once and parse the two stripped sides independently; otherwise fall back
to parsing the whole text as a single date, returned as both start and
end. -/
def parse_date_range (todayYear : Nat) (s : List Char) :
    Option (List Char) × Option (List Char) :=
  if s = [] then (none, none)
  else
    match separators.find? (fun sep => isSubstring sep s) with
    | some sep =>
      let p := splitOnFirst sep s
      (parse_date todayYear (strip p.1), parse_date todayYear (strip p.2))
    | none =>
      match parse_date todayYear s with
      | some d => (some d, some d)
      | none => (none, none)

/-- The regex fragment applied as `(\d+(?:\.\d{2})?)` in
`extract_price_range`: a greedy digit run with an optional
exactly-two-digit cents group, with the one backtracking step the regex
engine would take when the continuation fails after consuming the cents. -/
def matchAmount (cs : List Char)
    (k : List Char → List Char → Option (List Char × List Char)) :
    Option (List Char × List Char) :=
  let ds := cs.takeWhile Char.isDigit
  if ds = [] then none
  else
    let rest := cs.drop ds.length
    match rest with
    | '.' :: d1 :: d2 :: r3 =>
      if d1.isDigit && d2.isDigit then
        (k (ds ++ ['.', d1, d2]) r3).orElse (fun _ => k ds rest)
      else k ds rest
    | _ => k ds rest

/-- A match of the two-sided range pattern of `extract_price_range`
(dollar, amount, hyphen or en-dash, optional dollar, amount, with
optional whitespace between tokens) anchored at the start of `cs`,
returning the two captured groups. -/
def rangeAt (cs : List Char) : Option (List Char × List Char) :=
  match cs with
  | '$' :: r1 =>
    matchAmount (r1.dropWhile isWs) (fun g1 r3 =>
      match r3.dropWhile isWs with
      | c :: r5 =>
        if c = '-' || c = endash then
          let r6 := r5.dropWhile isWs
          let r7 := if r6.head? = some '$' then (r6.drop 1).dropWhile isWs else r6
          matchAmount r7 (fun g2 _ => some (g1, g2))
        else none
      | [] => none)
  | _ => none

/-- Embedding of `re.search` of the range pattern: leftmost match wins. -/
def searchRange : List Char → Option (List Char × List Char)
  | [] => none
  | c :: cs => (rangeAt (c :: cs)).orElse (fun _ => searchRange cs)

/-- A match of the minimum-price pattern of `extract_price_range`
(`starting at` or `from`, then dollar and amount) anchored at the start of
`cs`; callers pass lowercased text to model `re.IGNORECASE`. -/
def startingAt (cs : List Char) : Option (List Char × List Char) :=
  let afterKey : Option (List Char) :=
    (if "starting".toList.isPrefixOf cs then
      let r := cs.drop 8
      let w := r.takeWhile isWs
      if w = [] then none
      else
        let r2 := r.drop w.length
        if "at".toList.isPrefixOf r2 then some (r2.drop 2) else none
    else none).orElse
      (fun _ => if "from".toList.isPrefixOf cs then some (cs.drop 4) else none)
  match afterKey with
  | none => none
  | some r3 =>
    match r3.dropWhile isWs with
    | '$' :: r5 => matchAmount (r5.dropWhile isWs) (fun g _ => some (g, []))
    | _ => none

def searchStarting : List Char → Option (List Char × List Char)
  | [] => none
  | c :: cs => (startingAt (c :: cs)).orElse (fun _ => searchStarting cs)

/-- A match of the bare price pattern (dollar then amount). -/
def singleAt (cs : List Char) : Option (List Char × List Char) :=
  match cs with
  | '$' :: r1 => matchAmount (r1.dropWhile isWs) (fun g _ => some (g, []))
  | _ => none

def searchSingle : List Char → Option (List Char × List Char)
  | [] => none
  | c :: cs => (singleAt (c :: cs)).orElse (fun _ => searchSingle cs)

/-- Embedding of `extract_price_range` from
`src/scraper/utils/parsing.py`: the three patterns are tried in source
order — two-sided range, `starting at`/`from` minimum, single bare
price — and the first match is formatted. -/
def extract_price_range (text : List Char) : Option (List Char) :=
  if text = [] then none
  else
    match searchRange text with
    | some (a, b) => some ('$' :: a ++ '-' :: '$' :: b)
    | none =>
      match searchStarting (text.map Char.toLower) with
      | some (g, _) => some ('$' :: g ++ ['+'])
      | none =>
        match searchSingle text with
        | some (g, _) => some ('$' :: g)
        | none => none

inductive ShowStatus where
  | upcoming | running | closed | canceled | postponed
deriving DecidableEq

/-- The lowercase wire token of each status, the `ShowStatus(Enum)` values
in `src/scraper/base/data_schema.py`. -/
def ShowStatus.value : ShowStatus → List Char
  | .upcoming => "upcoming".toList
  | .running => "running".toList
  | .closed => "closed".toList
  | .canceled => "canceled".toList
  | .postponed => "postponed".toList

structure ShowDates where
  start : Option (List Char) := none
  «end» : Option (List Char) := none
  schedule : Option (List Char) := none
deriving DecidableEq

structure Show where
  theater_name : List Char
  theater_url : List Char
  show_title : List Char
  playwright : Option (List Char) := none
  director : Option (List Char) := none
  dates : Option ShowDates := none
  venue : Option (List Char) := none
  description : Option (List Char) := none
  ticket_url : Option (List Char) := none
  price_range : Option (List Char) := none
  genres : List (List Char) := []
  cast : List (List Char) := []
  runtime : Option (List Char) := none
  image_url : Option (List Char) := none
  status : ShowStatus := .upcoming
  scraped_at : List Char := []
  scraper_version : List Char := "1.0".toList
  scraper_type : Option (List Char) := none
deriving DecidableEq

/-- A JSON-compatible value: the shape of `json.loads` results and of the
dictionaries produced by the `to_dict` serializers. -/
inductive JValue where
  | jnull
  | jbool (b : Bool)
  | jnum (n : Int)
  | jstr (s : List Char)
  | jarr (xs : List JValue)
  | jobj (kvs : List (List Char × JValue))

/-- Embedding of `Show.__post_init__` from
`src/scraper/base/data_schema.py`: dataclass construction validates that
the title and the theater name are non-blank, raising `ValueError`
otherwise (modelled as `Except.error`).  The remaining branch of
`__post_init__` (coercing a `dates` dict to `ShowDates`) is a Python
typing artifact with no counterpart here, where `dates` is already an
`Option ShowDates`. -/
def mkShow (theater_name theater_url show_title : List Char)
    (playwright director : Option (List Char)) (dates : Option ShowDates)
    (venue description ticket_url price_range : Option (List Char))
    (genres cast : List (List Char)) (runtime image_url : Option (List Char))
    (status : ShowStatus) (scraped_at scraper_version : List Char)
    (scraper_type : Option (List Char)) : Except (List Char) Show :=
  if show_title = [] ∨ strip show_title = [] then
    .error "show_title cannot be empty".toList
  else if theater_name = [] ∨ strip theater_name = [] then
    .error "theater_name cannot be empty".toList
  else
    .ok
      { theater_name := theater_name, theater_url := theater_url,
        show_title := show_title, playwright := playwright,
        director := director, dates := dates, venue := venue,
        description := description, ticket_url := ticket_url,
        price_range := price_range, genres := genres, cast := cast,
        runtime := runtime, image_url := image_url, status := status,
        scraped_at := scraped_at, scraper_version := scraper_version,
        scraper_type := scraper_type }

/-- Constructing a `Show` with every optional dataclass field left at its
default (`scraped_at` stands in for the timestamp factory). -/
def mkShowDefaults (theater_name theater_url show_title scraped_at : List Char) :
    Except (List Char) Show :=
  mkShow theater_name theater_url show_title none none none none none none none
    [] [] none none .upcoming scraped_at "1.0".toList none

/-- Embedding of `ShowDates.to_dict` from
`src/scraper/base/data_schema.py`: the dict of the three fields with
`None` entries removed.  `Show.to_dict` does not call it; see
`Show.to_dict`. -/
def ShowDates.to_dict (d : ShowDates) : List (List Char × JValue) :=
  (match d.start with | none => [] | some v => [("start".toList, JValue.jstr v)]) ++
  (match d.«end» with | none => [] | some v => [("end".toList, JValue.jstr v)]) ++
  (match d.schedule with | none => [] | some v => [("schedule".toList, JValue.jstr v)])

/-- The `dataclasses.asdict` image of a `ShowDates`: all three keys,
absent values as JSON null.  This is the dict `asdict` hands
`Show.to_dict` for the `dates` field. -/
def ShowDates.asdict (d : ShowDates) : List (List Char × JValue) :=
  [("start".toList, match d.start with | none => .jnull | some v => .jstr v),
   ("end".toList, match d.«end» with | none => .jnull | some v => .jstr v),
   ("schedule".toList, match d.schedule with | none => .jnull | some v => .jstr v)]

/-- Embedding of `Show.to_dict` from `src/scraper/base/data_schema.py`:
iterate the `asdict` image in dataclass field order; skip `None` values;
copy the `dates` sub-dict verbatim (the `asdict` image, nulls included —
the code never calls `ShowDates.to_dict`); serialize `status` through
`.value`; skip empty lists; keep everything else. -/
def Show.to_dict (s : Show) : List (List Char × JValue) :=
  let opt (name : List Char) : Option (List Char) → List (List Char × JValue)
    | none => []
    | some v => [(name, .jstr v)]
  let lst (name : List Char) (v : List (List Char)) : List (List Char × JValue) :=
    if v = [] then [] else [(name, .jarr (v.map .jstr))]
  [("theater_name".toList, JValue.jstr s.theater_name),
   ("theater_url".toList, JValue.jstr s.theater_url),
   ("show_title".toList, JValue.jstr s.show_title)] ++
  opt "playwright".toList s.playwright ++
  opt "director".toList s.director ++
  (match s.dates with
   | none => []
   | some d => [("dates".toList, JValue.jobj d.asdict)]) ++
  opt "venue".toList s.venue ++
  opt "description".toList s.description ++
  opt "ticket_url".toList s.ticket_url ++
  opt "price_range".toList s.price_range ++
  lst "genres".toList s.genres ++
  lst "cast".toList s.cast ++
  opt "runtime".toList s.runtime ++
  opt "image_url".toList s.image_url ++
  [("status".toList, JValue.jstr s.status.value),
   ("scraped_at".toList, JValue.jstr s.scraped_at),
   ("scraper_version".toList, JValue.jstr s.scraper_version)] ++
  opt "scraper_type".toList s.scraper_type

/-- A concrete open-ended run: dates present with only a start. -/
def showWithOpenDates : Show :=
  { theater_name := "New York Theatre Workshop".toList,
    theater_url := "https://www.nytw.org".toList,
    show_title := "Hamlet".toList,
    dates := some { start := some "2025-01-01".toList },
    scraped_at := "2025-06-01T12:00:00".toList }

structure ScraperResult where
  theater_name : List Char
  success : Bool
  shows : List Show := []
  error : Option (List Char) := none
  warnings : List (List Char) := []
  scraped_at : List Char := []
deriving DecidableEq

/-- Modelled from the spec: the date-format well-formedness check of the
scrape session delegates to the standard library ISO-format parser
(`datetime.fromisoformat`); the dates this pipeline produces are date-only
`YYYY-MM-DD` strings, modelled with real calendar bounds. -/
def is_valid_iso_date (s : List Char) : Bool :=
  match s with
  | [y1, y2, y3, y4, h1, m1, m2, h2, d1, d2] =>
    y1.isDigit && y2.isDigit && y3.isDigit && y4.isDigit &&
    h1 = '-' && h2 = '-' && m1.isDigit && m2.isDigit && d1.isDigit && d2.isDigit &&
    (let y := digitsToNat [y1, y2, y3, y4]
     let m := digitsToNat [m1, m2]
     let d := digitsToNat [d1, d2]
     let dim :=
       if m = 2 then
         if (y % 4 = 0 && y % 100 != 0) || y % 400 = 0 then 29 else 28
       else if m = 4 || m = 6 || m = 9 || m = 11 then 30 else 31
     1 ≤ m && m ≤ 12 && 1 ≤ d && d ≤ dim)
  | _ => false

/-- Embedding of `BaseScraper.validate_show` from
`src/scraper/base/base_scraper.py`: pure inspection producing warnings —
short title, non-absolute ticket URL, malformed ISO dates.  Empty strings
are falsy in the truth tests of the source. -/
def validate_show (s : Show) : List (List Char) :=
  (if s.show_title = [] ∨ (strip s.show_title).length < 2 then
    ["Suspiciously short show title: ".toList ++ squote :: s.show_title ++ [squote]]
  else []) ++
  (match s.ticket_url with
   | some u =>
     if u ≠ [] ∧ ¬ ("http".toList.isPrefixOf u) then
       ["Invalid ticket URL: ".toList ++ u]
     else []
   | none => []) ++
  (match s.dates with
   | some d =>
     (match d.start with
      | some v =>
        if v ≠ [] ∧ ¬ is_valid_iso_date v then
          ["Invalid start date format: ".toList ++ v]
        else []
      | none => []) ++
     (match d.«end» with
      | some v =>
        if v ≠ [] ∧ ¬ is_valid_iso_date v then
          ["Invalid end date format: ".toList ++ v]
        else []
      | none => [])
   | none => [])

/-- Embedding of `BaseScraper.run` from
`src/scraper/base/base_scraper.py`: execute the strategy chain (`scrape`,
whose outcome — normal return or raised exception — is the `Except`
argument), extend the warnings of the result with per-show validation
warnings, and convert any escaping exception into a failed
`ScraperResult` carrying the exception text. -/
def BaseScraper.run (theater_name scraped_at : List Char)
    (scrapeOutcome : Except (List Char) ScraperResult) : ScraperResult :=
  match scrapeOutcome with
  | .ok result =>
    { result with
      warnings := result.warnings ++ (result.shows.map validate_show).flatten }
  | .error e =>
    { theater_name := theater_name, success := false, shows := [],
      error := some e, warnings := [], scraped_at := scraped_at }

/-- The status-resolution block of `_parse_spektrix_event`
(`src/scraper/platforms/wordpress_spektrix.py`, lines 126-139): default
upcoming, then the status-text rules, then the className rule. -/
def resolve_status (status? className? : Option (List Char)) : ShowStatus :=
  let s1 :=
    match status? with
    | some st =>
      let l := st.map Char.toLower
      if isSubstring "cancel".toList l then ShowStatus.canceled
      else if isSubstring "closed".toList l || isSubstring "past".toList l then
        ShowStatus.closed
      else ShowStatus.upcoming
    | none => ShowStatus.upcoming
  match className? with
  | some cn =>
    let l := cn.map Char.toLower
    if isSubstring "main-stage".toList l || isSubstring "perfs".toList l then
      ShowStatus.running
    else s1
  | none => s1

/-- The bracket-matching scan loop of `extract_js_array`
(`src/scraper/platforms/wordpress_spektrix.py`, lines 264-308).  `cs` is
the text from the opening bracket on, `pos` is the Python `i -
bracket_pos`, `depth` the bracket depth, `strCh` the active string
delimiter (the Python `in_string` flag is its presence), `esc` the pending
escape flag.  Returns the relative index of the matching closing bracket.
The 500000 size check runs only at the foot of a normal iteration: the
two escape `continue` paths skip it, and a depth-zero closing bracket
returns before it. -/
def scanLoop : List Char → Nat → Int → Option Char → Bool → Option Nat
  | [], _, _, _, _ => none
  | c :: cs, pos, depth, strCh, esc =>
    if esc then scanLoop cs (pos + 1) depth strCh false
    else if c = bslash then scanLoop cs (pos + 1) depth strCh true
    else if (c = dquote ∨ c = squote) ∧ strCh = none then
      if pos + 1 > 500000 then none
      else scanLoop cs (pos + 1) depth (some c) false
    else if strCh = some c then
      if pos + 1 > 500000 then none
      else scanLoop cs (pos + 1) depth none false
    else if strCh = none then
      if c = '[' then
        if pos + 1 > 500000 then none
        else scanLoop cs (pos + 1) (depth + 1) strCh false
      else if c = ']' then
        if depth - 1 = 0 then some pos
        else if pos + 1 > 500000 then none
        else scanLoop cs (pos + 1) (depth - 1) strCh false
      else
        if pos + 1 > 500000 then none
        else scanLoop cs (pos + 1) depth strCh false
    else
      if pos + 1 > 500000 then none
      else scanLoop cs (pos + 1) depth strCh false

/-- The anchor regex of `extract_js_array` (the escaped keyword, greedy
whitespace, an equals sign, greedy whitespace) matched at the start of
`cs`.  Returns the matched length, the regex match end relative to the
position. -/
def matchAnchorAt (kw cs : List Char) : Option Nat :=
  if kw.isPrefixOf cs then
    let rest := cs.drop kw.length
    let w1 := (rest.takeWhile isWs).length
    match rest.drop w1 with
    | '=' :: rest2 => some (kw.length + w1 + 1 + (rest2.takeWhile isWs).length)
    | _ => none
  else none

/-- Embedding of `re.search` of the anchor pattern: the end position of
the leftmost match. -/
def findAnchor (kw : List Char) : List Char → Nat → Option Nat
  | [], _ => none
  | c :: cs, i =>
    match matchAnchorAt kw (c :: cs) with
    | some n => some (i + n)
    | none => findAnchor kw cs (i + 1)

/-- Python `text.find(ch, lo, hi)`: the first absolute index `i` with
`lo ≤ i < hi` holding `ch`, or none. -/
def findCharFrom (text : List Char) (ch : Char) (lo hi : Nat) : Option Nat :=
  (((text.drop lo).take (hi - lo)).findIdx? (fun c => c = ch)).map (fun i => i + lo)

/-- Embedding of `extract_js_array` from
`src/scraper/platforms/wordpress_spektrix.py`: find the anchor pattern,
locate the opening bracket in a 20-character window around the match end,
then run the string-aware bracket scan; on success return the
`text[bracket_pos : i + 1]` slice. -/
def extract_js_array (text kw : List Char) : Option (List Char) :=
  match findAnchor kw text 0 with
  | none => none
  | some startPos =>
    match findCharFrom text '[' (startPos - 10) (startPos + 10) with
    | none => none
    | some bracketPos =>
      match scanLoop (text.drop bracketPos) 0 0 none false with
      | some i => some ((text.drop bracketPos).take (i + 1))
      | none => none

/-- The tail of the trailing-comma regex: leading whitespace followed by
one closing brace or bracket; returns the matched characters and the
remainder. -/
def wsClose : List Char → Option (List Char × List Char)
  | [] => none
  | c :: cs =>
    if isWs c then (wsClose cs).map (fun p => (c :: p.1, p.2))
    else if c = rbrace ∨ c = ']' then some ([c], cs)
    else none

/-- Worker for the trailing-comma cleanup `re.sub` of `_scrape_from_page`:
delete every comma that directly precedes (possibly
whitespace-separated) a closing brace or bracket, scanning left to right
and resuming after each match.  Fuel-driven; each step consumes at least
one character, so `l.length` fuel always suffices. -/
def stripTrailingCommasGo : Nat → List Char → List Char
  | 0, l => l
  | _ + 1, [] => []
  | fuel + 1, c :: cs =>
    if c = ',' then
      match wsClose cs with
      | some (m, r) => m ++ stripTrailingCommasGo fuel r
      | none => c :: stripTrailingCommasGo fuel cs
    else c :: stripTrailingCommasGo fuel cs

def stripTrailingCommas (l : List Char) : List Char :=
  stripTrailingCommasGo l.length l

/-- The embedded-JSON cleanup of `_scrape_from_page`
(`src/scraper/platforms/wordpress_spektrix.py`, lines 316-320): unescape
backslash-quote to a bare single quote, then strip trailing commas. -/
def cleanupEmbeddedJson (l : List Char) : List Char :=
  stripTrailingCommas (replaceAll [bslash, squote] [squote] l)

def jsonWs (c : Char) : Bool :=
  c = ' ' || c = Char.ofNat 9 || c = Char.ofNat 10 || c = Char.ofNat 13

/-- A JSON string body after the opening quote: plain characters and the
single-character escapes.  Modelled from the spec: the strict
target-format parse is the standard library `json.loads`; unicode escapes
and non-integer numbers are outside the subset this repository feeds it
and parse to none here. -/
def parseJString : Nat → List Char → Option (List Char × List Char)
  | 0, _ => none
  | _ + 1, [] => none
  | fuel + 1, c :: cs =>
    if c = dquote then some ([], cs)
    else if c = bslash then
      match cs with
      | [] => none
      | e :: cs2 =>
        let d? : Option Char :=
          if e = dquote then some dquote
          else if e = bslash then some bslash
          else if e = '/' then some '/'
          else if e = 'n' then some (Char.ofNat 10)
          else if e = 't' then some (Char.ofNat 9)
          else if e = 'r' then some (Char.ofNat 13)
          else if e = 'b' then some (Char.ofNat 8)
          else if e = 'f' then some (Char.ofNat 12)
          else none
        match d? with
        | some d => (parseJString fuel cs2).map (fun p => (d :: p.1, p.2))
        | none => none
    else if c.toNat < 32 then none
    else (parseJString fuel cs).map (fun p => (c :: p.1, p.2))

mutual

/-- Recursive-descent JSON value parser (integer-number subset), modelling
`json.loads`. -/
def parseJVal : Nat → List Char → Option (JValue × List Char)
  | 0, _ => none
  | fuel + 1, cs =>
    match cs.dropWhile jsonWs with
    | [] => none
    | c :: rest =>
      if c = lbrace then
        match rest.dropWhile jsonWs with
        | d :: rest2 =>
          if d = rbrace then some (.jobj [], rest2)
          else parseJObjMembers fuel rest |>.map (fun p => (.jobj p.1, p.2))
        | [] => none
      else if c = '[' then
        match rest.dropWhile jsonWs with
        | d :: rest2 =>
          if d = ']' then some (.jarr [], rest2)
          else parseJArrElems fuel rest |>.map (fun p => (.jarr p.1, p.2))
        | [] => none
      else if c = dquote then
        (parseJString fuel rest).map (fun p => (.jstr p.1, p.2))
      else if c = 't' then
        if "rue".toList.isPrefixOf rest then some (.jbool true, rest.drop 3) else none
      else if c = 'f' then
        if "alse".toList.isPrefixOf rest then some (.jbool false, rest.drop 4) else none
      else if c = 'n' then
        if "ull".toList.isPrefixOf rest then some (.jnull, rest.drop 3) else none
      else if c = '-' || c.isDigit then
        let sb : Int × List Char := if c = '-' then (-1, rest) else (1, c :: rest)
        let ds := sb.2.takeWhile Char.isDigit
        if ds = [] then none
        else if 1 < ds.length ∧ ds.head? = some '0' then none
        else
          let after := sb.2.drop ds.length
          match after.head? with
          | some a =>
            if a = '.' || a = 'e' || a = 'E' then none
            else some (.jnum (sb.1 * digitsToNat ds), after)
          | none => some (.jnum (sb.1 * digitsToNat ds), after)
      else none

/-- Comma-separated JSON object members up to the closing brace. -/
def parseJObjMembers : Nat → List Char → Option (List (List Char × JValue) × List Char)
  | 0, _ => none
  | fuel + 1, cs =>
    match cs.dropWhile jsonWs with
    | c :: rest =>
      if c = dquote then
        match parseJString fuel rest with
        | some (key, r2) =>
          match r2.dropWhile jsonWs with
          | ':' :: r3 =>
            match parseJVal fuel r3 with
            | some (v, r4) =>
              match r4.dropWhile jsonWs with
              | ',' :: r5 =>
                (parseJObjMembers fuel r5).map (fun p => ((key, v) :: p.1, p.2))
              | d :: r5 =>
                if d = rbrace then some ([(key, v)], r5) else none
              | [] => none
            | none => none
          | _ => none
        | none => none
      else none
    | [] => none

/-- Comma-separated JSON array elements up to the closing bracket. -/
def parseJArrElems : Nat → List Char → Option (List JValue × List Char)
  | 0, _ => none
  | fuel + 1, cs =>
    match parseJVal fuel cs with
    | some (v, r1) =>
      match r1.dropWhile jsonWs with
      | ',' :: r2 => (parseJArrElems fuel r2).map (fun p => (v :: p.1, p.2))
      | ']' :: r2 => some ([v], r2)
      | _ => none
    | none => none

end

/-- Modelled `json.loads` (integer subset): parse one value and require
only whitespace to remain. -/
def json_loads (cs : List Char) : Option JValue :=
  match parseJVal (cs.length + 1) cs with
  | some (v, rest) => if rest.dropWhile jsonWs = [] then some v else none
  | none => none

/-- An array literal whose matching closing bracket lies 1200001
characters past the opening one, the gap filled with escape characters. -/
def bigArr : List Char := '[' :: (List.replicate 1200000 bslash ++ [']'])

/-- A page text assigning `bigArr` to `var events`. -/
def textOverBound : List Char := "var events = ".toList ++ bigArr

/-- A page text whose embedded array literal never closes. -/
def textNoClose : List Char :=
  "var events = ".toList ++ ('[' :: List.replicate 1200000 bslash)

theorem collapse_cons2 (c d : Char) (rest : List Char) :
    collapse (c :: d :: rest) =
      if isWs c && isWs d then collapse (d :: rest)
      else if isWs c then ' ' :: collapse (d :: rest)
      else c :: collapse (d :: rest) := rfl

theorem collapse_length_le (l : List Char) : (collapse l).length ≤ l.length := by
  induction l using collapse.induct with
  | case1 => simp [collapse]
  | case2 c h => simp [collapse, h]
  | case3 c h => simp [collapse, h]
  | case4 c d rest h ih =>
    rw [collapse_cons2, if_pos h]
    simp only [List.length_cons] at ih ⊢; omega
  | case5 c d rest h h2 ih =>
    rw [collapse_cons2, if_neg (by simp_all), if_pos h2]
    simp only [List.length_cons] at ih ⊢; omega
  | case6 c d rest h h2 ih =>
    rw [collapse_cons2, if_neg (by simp_all), if_neg h2]
    simp only [List.length_cons] at ih ⊢; omega

theorem collapse_ne_nil (c : Char) (rest : List Char) : collapse (c :: rest) ≠ [] := by
  induction rest generalizing c with
  | nil => by_cases h : isWs c <;> simp [collapse, h]
  | cons d rest ih =>
    rw [collapse_cons2]
    by_cases h1 : isWs c && isWs d
    · rw [if_pos h1]; exact ih d
    · rw [if_neg h1]; by_cases h2 : isWs c <;> simp [h2]

theorem collapse_cons_nonws (d : Char) (rest : List Char) (h : ¬ isWs d) :
    ∃ X, collapse (d :: rest) = d :: X := by
  cases rest with
  | nil => exact ⟨[], by simp [collapse, h]⟩
  | cons e rest2 =>
    refine ⟨collapse (e :: rest2), ?_⟩
    rw [collapse_cons2, if_neg (by simp [h]), if_neg h]

theorem collapse_idem (l : List Char) : collapse (collapse l) = collapse l := by
  induction l using collapse.induct with
  | case1 => rfl
  | case2 c h => simp [collapse, h]
  | case3 c h => simp [collapse, h]
  | case4 c d rest h ih => rw [collapse_cons2, if_pos h]; exact ih
  | case5 c d rest h h2 ih =>
    have hd : ¬ isWs d := by
      intro hd; exact absurd (by simp [h2, hd]) h
    rw [collapse_cons2, if_neg (by simp_all), if_pos h2]
    obtain ⟨X, hX⟩ := collapse_cons_nonws d rest hd
    rw [hX]
    rw [collapse_cons2, if_neg (by simp [hd]), if_pos (by simp [isWs])]
    rw [← hX, ih, hX]
  | case6 c d rest h h2 ih =>
    rw [collapse_cons2, if_neg (by simp_all), if_neg h2]
    obtain ⟨e, X, hX⟩ : ∃ e X, collapse (d :: rest) = e :: X := by
      cases hc : collapse (d :: rest) with
      | nil => exact absurd hc (collapse_ne_nil d rest)
      | cons e X => exact ⟨e, X, rfl⟩
    rw [hX, collapse_cons2, if_neg (by simp [h2]), if_neg h2, ← hX, ih]

theorem collapse_tail (c : Char) (xs : List Char) (h : collapse (c :: xs) = c :: xs) :
    collapse xs = xs := by
  cases xs with
  | nil => rfl
  | cons d rest =>
    rw [collapse_cons2] at h
    by_cases h1 : isWs c && isWs d
    · rw [if_pos h1] at h
      have := collapse_length_le (d :: rest)
      rw [h] at this
      simp at this
    · rw [if_neg h1] at h
      by_cases h2 : isWs c
      · rw [if_pos h2] at h
        exact (List.cons.injEq _ _ _ _ ▸ h).2
      · rw [if_neg h2] at h
        exact (List.cons.injEq _ _ _ _ ▸ h).2

theorem collapse_of_suffix {x y : List Char} (hx : collapse x = x) (hs : y <:+ x) :
    collapse y = y := by
  obtain ⟨t, ht⟩ := hs
  induction t generalizing x with
  | nil => simpa [← ht] using hx
  | cons c t2 ih =>
    subst ht
    exact ih (collapse_tail c (t2 ++ y) hx) rfl

theorem collapse_take {x : List Char} (hx : collapse x = x) (k : Nat) :
    collapse (x.take k) = x.take k := by
  induction x using collapse.induct generalizing k with
  | case1 => simp [collapse]
  | case2 c h =>
    have hc : c = ' ' := by
      have := hx; simp [collapse, h] at this; exact this.symm
    cases k with
    | zero => rfl
    | succ n => subst hc; simp [collapse]
  | case3 c h =>
    cases k with
    | zero => rfl
    | succ n => simp [collapse, h]
  | case4 c d rest h ih =>
    rw [collapse_cons2, if_pos h] at hx
    have := collapse_length_le (d :: rest)
    rw [hx] at this
    simp at this
  | case5 c d rest h h2 ih =>
    rw [collapse_cons2, if_neg (by simp_all), if_pos h2] at hx
    have hc : c = ' ' := ((List.cons.injEq _ _ _ _ ▸ hx).1).symm
    have hrest : collapse (d :: rest) = d :: rest := (List.cons.injEq _ _ _ _ ▸ hx).2
    have hd : ¬ isWs d := by
      intro hd; exact absurd (by simp [h2, hd]) h
    cases k with
    | zero => rfl
    | succ n =>
      cases n with
      | zero => subst hc; simp [collapse]
      | succ m =>
        simp only [List.take_succ_cons]
        rw [collapse_cons2, if_neg (by simp [hd]), if_pos h2]
        have := ih hrest (m + 1)
        simp only [List.take_succ_cons] at this
        rw [this, hc]
  | case6 c d rest h h2 ih =>
    rw [collapse_cons2, if_neg (by simp_all), if_neg h2] at hx
    have hrest : collapse (d :: rest) = d :: rest := (List.cons.injEq _ _ _ _ ▸ hx).2
    cases k with
    | zero => rfl
    | succ n =>
      cases n with
      | zero => simp [collapse, h2]
      | succ m =>
        simp only [List.take_succ_cons]
        rw [collapse_cons2, if_neg (by simp [h2]), if_neg h2]
        have := ih hrest (m + 1)
        simp only [List.take_succ_cons] at this
        rw [this]

theorem collapse_of_prefix {x y : List Char} (hx : collapse x = x) (hp : y <+: x) :
    collapse y = y := by
  rw [List.prefix_iff_eq_take.mp hp]
  exact collapse_take hx _

theorem mem_collapse {a : Char} {l : List Char} (h : a ∈ collapse l) : a ∈ l ∨ a = ' ' := by
  induction l using collapse.induct with
  | case1 => simp [collapse] at h
  | case2 c hc => simp [collapse, hc] at h; right; exact h
  | case3 c hc => simp [collapse, hc] at h; left; simp [h]
  | case4 c d rest hc ih =>
    rw [collapse_cons2, if_pos hc] at h
    rcases ih h with h2 | h2
    · left; simp [h2]
    · right; exact h2
  | case5 c d rest hc h2 ih =>
    rw [collapse_cons2, if_neg (by simp_all), if_pos h2] at h
    rcases List.mem_cons.mp h with h3 | h3
    · right; exact h3
    · rcases ih h3 with h4 | h4
      · left; simp [h4]
      · right; exact h4
  | case6 c d rest hc h2 ih =>
    rw [collapse_cons2, if_neg (by simp_all), if_neg h2] at h
    rcases List.mem_cons.mp h with h3 | h3
    · left; simp [h3]
    · rcases ih h3 with h4 | h4
      · left; simp [h4]
      · right; exact h4

theorem dropWhile_take_eq_self {p : Char → Bool} {x : List Char}
    (hx : x.dropWhile p = x) (k : Nat) : (x.take k).dropWhile p = x.take k := by
  cases x with
  | nil => simp
  | cons c cs =>
    have hc : ¬ p c := by
      intro hpc
      rw [List.dropWhile_cons, if_pos hpc] at hx
      have := (List.dropWhile_sublist (l := cs) p).length_le
      rw [hx] at this
      simp at this
    cases k with
    | zero => simp
    | succ n => simp [List.dropWhile_cons, hc]

theorem dropWhile_eq_self_of_prefix {p : Char → Bool} {x y : List Char}
    (hx : x.dropWhile p = x) (hp : y <+: x) : y.dropWhile p = y := by
  rw [List.prefix_iff_eq_take.mp hp]
  exact dropWhile_take_eq_self hx _

theorem strip_idem (l : List Char) : strip (strip l) = strip l := by
  unfold strip
  have h1 : (((l.dropWhile isWs).rdropWhile isWs).dropWhile isWs)
      = (l.dropWhile isWs).rdropWhile isWs :=
    dropWhile_eq_self_of_prefix (List.dropWhile_idempotent _ _)
      (List.rdropWhile_prefix isWs _)
  rw [h1, List.rdropWhile_idempotent]

theorem mem_of_mem_strip {a : Char} {l : List Char} (h : a ∈ strip l) : a ∈ l :=
  (List.dropWhile_suffix isWs).subset ((List.rdropWhile_prefix isWs _).subset h)

theorem collapse_strip {u : List Char} (hu : collapse u = u) :
    collapse (strip u) = strip u := by
  unfold strip
  exact collapse_of_prefix
    (collapse_of_suffix hu (List.dropWhile_suffix isWs))
    (List.rdropWhile_prefix isWs _)

theorem replaceAll_not_mem {pat rep l : List Char}
    (h0 : pat.head? = some '&') (hl : '&' ∉ l) : replaceAll pat rep l = l := by
  obtain ⟨pat2, rfl⟩ : ∃ pat2, pat = '&' :: pat2 := by
    cases pat with
    | nil => simp at h0
    | cons p ps => simp at h0; exact ⟨ps, by rw [h0]⟩
  suffices hgen : ∀ fuel (l : List Char), '&' ∉ l →
      replaceAllGo ('&' :: pat2) rep fuel l = l from hgen _ l hl
  intro fuel
  induction fuel with
  | zero => intro l _; rfl
  | succ n ih =>
    intro l hmem
    cases l with
    | nil => rfl
    | cons c cs =>
      have hc : c ≠ '&' := fun h => hmem (h ▸ List.mem_cons_self c cs)
      rw [replaceAllGo, if_neg, ih cs (fun h => hmem (List.mem_cons_of_mem c h))]
      rintro ⟨-, hpre⟩
      rw [List.isPrefixOf_cons₂] at hpre
      simp at hpre
      exact hc hpre.1.symm

theorem clean_text_eq_of_no_amp {t : List Char} (ht : t ≠ [])
    (h : '&' ∉ strip (collapse t)) : clean_text t = strip (collapse t) := by
  rw [clean_text, if_neg ht]
  show replaceAll "&#8221;".toList [dquote]
      (replaceAll "&#8220;".toList [dquote]
        (replaceAll "&#8217;".toList [squote]
          (replaceAll "&quot;".toList [dquote]
            (replaceAll "&nbsp;".toList " ".toList
              (replaceAll "&amp;".toList "&".toList
                (strip (collapse t))))))) = strip (collapse t)
  rw [replaceAll_not_mem (by decide) h, replaceAll_not_mem (by decide) h,
    replaceAll_not_mem (by decide) h, replaceAll_not_mem (by decide) h,
    replaceAll_not_mem (by decide) h, replaceAll_not_mem (by decide) h]

theorem parse_date_range_no_sep (y : Nat) (s : List Char)
    (h : ∀ sep ∈ separators, isSubstring sep s = false) :
    parse_date_range y s = (parse_date y s, parse_date y s) := by
  by_cases hs : s = []
  · subst hs; rfl
  · have hf : separators.find? (fun sep => isSubstring sep s) = none :=
      List.find?_eq_none.mpr (fun sep hsep => by simp [h sep hsep])
    rw [parse_date_range, if_neg hs, hf]
    cases hpd : parse_date y s <;> simp

theorem scanLoop_cons_open (cs : List Char) :
    scanLoop ('[' :: cs) 0 0 none false = scanLoop cs 1 1 none false := by
  simp [scanLoop, bslash, dquote, squote]

theorem scanLoop_bslash_step (cs : List Char) (pos : Nat) (depth : Int)
    (strCh : Option Char) :
    scanLoop (bslash :: cs) pos depth strCh false =
      scanLoop cs (pos + 1) depth strCh true := by
  simp [scanLoop]

theorem scanLoop_esc_step (c : Char) (cs : List Char) (pos : Nat) (depth : Int)
    (strCh : Option Char) :
    scanLoop (c :: cs) pos depth strCh true =
      scanLoop cs (pos + 1) depth strCh false := by
  simp [scanLoop]

theorem scanLoop_skip_escapes (k : Nat) :
    ∀ (rest : List Char) (pos : Nat) (depth : Int) (strCh : Option Char),
      scanLoop (List.replicate (2 * k) bslash ++ rest) pos depth strCh false =
        scanLoop rest (pos + 2 * k) depth strCh false := by
  induction k with
  | zero => intro rest pos depth strCh; simp
  | succ n ih =>
    intro rest pos depth strCh
    have h2 : 2 * (n + 1) = 2 * n + 1 + 1 := by ring
    rw [h2, List.replicate_succ, List.replicate_succ, List.cons_append,
      List.cons_append, scanLoop_bslash_step, scanLoop_esc_step, ih]
    congr 1
    omega

theorem scanLoop_no_close :
    ∀ (cs : List Char), ']' ∉ cs → ∀ (pos : Nat) (depth : Int)
      (strCh : Option Char) (esc : Bool), scanLoop cs pos depth strCh esc = none := by
  intro cs
  induction cs with
  | nil => intro _ pos depth strCh esc; rfl
  | cons c cs ih =>
    intro h pos depth strCh esc
    have hc : c ≠ ']' := fun he => h (he ▸ List.mem_cons_self _ _)
    have hcs : ']' ∉ cs := fun hm => h (List.mem_cons_of_mem _ hm)
    rw [scanLoop]
    split_ifs <;> first
      | rfl
      | exact ih hcs _ _ _ _
      | exact absurd (by assumption) hc

theorem bigArr_length : bigArr.length = 1200002 := by
  rw [bigArr, List.length_cons, List.length_append, List.length_replicate,
    List.length_singleton]

theorem scanLoop_bigArr : scanLoop bigArr 0 0 none false = some 1200001 := by
  have h1 : bigArr = '[' :: (List.replicate (2 * 600000) bslash ++ [']']) := by
    norm_num [bigArr]
  rw [h1, scanLoop_cons_open, scanLoop_skip_escapes]
  norm_num
  decide

theorem extract_js_array_found (text kw : List Char) (s b i : Nat)
    (h1 : findAnchor kw text 0 = some s)
    (h2 : findCharFrom text '[' (s - 10) (s + 10) = some b)
    (h3 : scanLoop (text.drop b) 0 0 none false = some i) :
    extract_js_array text kw = some ((text.drop b).take (i + 1)) := by
  unfold extract_js_array
  rw [h1]
  dsimp only
  rw [h2]
  dsimp only
  rw [h3]

theorem extract_js_array_notfound (text kw : List Char) (s b : Nat)
    (h1 : findAnchor kw text 0 = some s)
    (h2 : findCharFrom text '[' (s - 10) (s + 10) = some b)
    (h3 : scanLoop (text.drop b) 0 0 none false = none) :
    extract_js_array text kw = none := by
  unfold extract_js_array
  rw [h1]
  dsimp only
  rw [h2]
  dsimp only
  rw [h3]

/-- Claim C1: for the input text assigning the array literal with an
embedded bracket-in-string to `var events`, `extract_js_array` returns the
exact substring from the opening to the matching closing bracket (the
bracket inside the string literal does not decrement depth), and after the
trailing-comma cleanup the parse yields the single record with keys `a`
mapped to the bracket-bearing string and `b` mapped to 1. -/
theorem C1_embedded_array_roundtrip :
    extract_js_array "var events = [\x7b\"a\": \"x]y\", \"b\": 1\x7d,];".toList
      "var events".toList =
      some "[\x7b\"a\": \"x]y\", \"b\": 1\x7d,]".toList ∧
    json_loads (cleanupEmbeddedJson "[\x7b\"a\": \"x]y\", \"b\": 1\x7d,]".toList) =
      some (JValue.jarr [JValue.jobj
        [("a".toList, JValue.jstr "x]y".toList),
         ("b".toList, JValue.jnum 1)]]) :=
  ⟨rfl, rfl⟩

/-- Claim C2: evaluation at the failing input.  The claim asserts the scan
gives up after at most 500000 characters past the opening bracket; on
`textOverBound`, whose matching closing bracket lies 1200001 characters
past the opening one behind a run of escape characters, the extractor
nevertheless returns the full 1200002-character array, because the two
escape `continue` paths skip the size check and a depth-zero closing
bracket returns before it.  On `textNoClose`, which never closes the
bracket, the extractor does return none. -/
theorem C2_scan_bound_violation :
    extract_js_array textOverBound "var events".toList = some bigArr ∧
      bigArr.length = 1200002 ∧
      extract_js_array textNoClose "var events".toList = none := by
  refine ⟨?_, bigArr_length, ?_⟩
  · have hdrop : textOverBound.drop 13 = bigArr := by
      rw [textOverBound]
      exact List.drop_left' (by rfl)
    have htake : bigArr.take (1200001 + 1) = bigArr :=
      List.take_of_length_le (by rw [bigArr_length])
    have hscan : scanLoop (textOverBound.drop 13) 0 0 none false = some 1200001 := by
      rw [hdrop]
      exact scanLoop_bigArr
    rw [extract_js_array_found textOverBound "var events".toList 13 13 1200001
      rfl rfl hscan, hdrop, htake]
  · have hdrop : textNoClose.drop 13 = '[' :: List.replicate 1200000 bslash := by
      rw [textNoClose]
      exact List.drop_left' (by rfl)
    have hmem : ']' ∉ ('[' :: List.replicate 1200000 bslash) := by
      intro hm
      rcases List.mem_cons.mp hm with h | h
      · exact absurd h (by decide)
      · exact absurd (List.eq_of_mem_replicate h) (by decide)
    have hscan : scanLoop (textNoClose.drop 13) 0 0 none false = none := by
      rw [hdrop]
      exact scanLoop_no_close _ hmem 0 0 none false
    exact extract_js_array_notfound textNoClose "var events".toList 13 13 rfl rfl hscan

/-- Claim C3: constructing a `Show` whose title or theater name is empty
or whitespace-only fails with a validation error for every choice of the
other fields; constructing with a non-blank title and theater name and
every optional field absent succeeds, and the status of the result is
upcoming. -/
theorem C3_show_construction_invariant :
    (∀ tn tu st pw dir dts vn ds tk pr g c rt iu stt sa sv sty,
      (st = [] ∨ strip st = []) ∨ (tn = [] ∨ strip tn = []) →
      ∃ e, mkShow tn tu st pw dir dts vn ds tk pr g c rt iu stt sa sv sty =
        .error e)
    ∧ (∀ tn tu st sa, ¬(st = [] ∨ strip st = []) → ¬(tn = [] ∨ strip tn = []) →
      ∃ s, mkShowDefaults tn tu st sa = .ok s ∧ s.status = .upcoming) := by
  constructor
  · intro tn tu st pw dir dts vn ds tk pr g c rt iu stt sa sv sty h
    by_cases h1 : st = [] ∨ strip st = []
    · exact ⟨_, by rw [mkShow, if_pos h1]⟩
    · have h2 : tn = [] ∨ strip tn = [] := h.resolve_left h1
      exact ⟨_, by rw [mkShow, if_neg h1, if_pos h2]⟩
  · intro tn tu st sa h1 h2
    exact ⟨_, by rw [mkShowDefaults, mkShow, if_neg h1, if_neg h2], rfl⟩

/-- Witness for C3 at concrete inputs: a whitespace-only title is rejected
whatever the other fields hold, and a plain title and theater name with
all defaults construct an upcoming show. -/
theorem C3_show_construction_witness :
    (∃ e, mkShow "NYTW".toList "u".toList "   ".toList none none none none none
      none none [] [] none none .upcoming [] [] none = .error e) ∧
    (∃ s, mkShowDefaults "NYTW".toList "u".toList "Hamlet".toList [] = .ok s ∧
      s.status = .upcoming) :=
  ⟨C3_show_construction_invariant.1 _ _ _ _ _ _ _ _ _ _ _ _ _ _ _ _ _ _
    (Or.inl (Or.inr (by decide))),
   C3_show_construction_invariant.2 _ _ _ _ (by decide) (by decide)⟩

/-- Claim C4: for every scrape execution that raises (`Except.error`), the
session `run` does not propagate the exception: it returns a well-formed
`ScraperResult` with `success := false` and the exception message as the
error field. -/
theorem C4_run_catches_exceptions (tn sa e : List Char) :
    BaseScraper.run tn sa (.error e) =
      { theater_name := tn, success := false, shows := [], error := some e,
        warnings := [], scraped_at := sa } := rfl

/-- Claim C5: the class rule is evaluated after the status-text rules, so
for every record whose className contains `main-stage` or `perfs`
(case-insensitively) the final status is running, whatever the status text
said. -/
theorem C5_class_marker_forces_running (st? : Option (List Char)) (cn : List Char)
    (h : isSubstring "main-stage".toList (cn.map Char.toLower) = true ∨
      isSubstring "perfs".toList (cn.map Char.toLower) = true) :
    resolve_status st? (some cn) = .running := by
  have hb : (isSubstring "main-stage".toList (cn.map Char.toLower) ||
      isSubstring "perfs".toList (cn.map Char.toLower)) = true := by
    rcases h with h | h <;> rw [h] <;> simp
  rw [resolve_status.eq_def]
  dsimp only
  rw [if_pos hb]

/-- Witness for C5: a record whose status text matches the cancellation
rule still resolves to running when its className carries a marker. -/
theorem C5_class_marker_witness :
    resolve_status (some "CANCELLED".toList) (some "main-stage".toList) = .running :=
  C5_class_marker_forces_running _ _ (by decide)

/-- Claim C6 counterexample: the left side of `Feb 21 - Mar 29, 2025`
carries no year, and the external fuzzy parser fills the missing year from
the current date.  Evaluated with current year 2026, the result differs
from the pair the claim fixes and violates the claimed start-before-end
ordering. -/
theorem C6_counterexample :
    parse_date_range 2026 "Feb 21 - Mar 29, 2025".toList =
      (some "2026-02-21".toList, some "2025-03-29".toList) ∧
    parse_date_range 2026 "Feb 21 - Mar 29, 2025".toList ≠
      (some "2025-02-21".toList, some "2025-03-29".toList) ∧
    "2025-03-29".toList < "2026-02-21".toList := by
  refine ⟨by decide, by decide, by decide⟩

/-- Claim C6 as amended: when the current year is 2025,
`parse_date_range` maps `Feb 21 - Mar 29, 2025` to the pair
`(2025-02-21, 2025-03-29)`; in general the yearless side inherits the
current year, so the start-before-end ordering is not guaranteed. -/
theorem C6_amended_year_2025 :
    parse_date_range 2025 "Feb 21 - Mar 29, 2025".toList =
      (some "2025-02-21".toList, some "2025-03-29".toList) := by decide

/-- Claim C7: for every input containing none of the recognized range
separators, `parse_date_range` equals the pair of `parse_date` applied to
the whole input — the single-date fallback, holding also when the single
parse fails. -/
theorem C7_no_separator_single_date (y : Nat) (s : List Char)
    (h : ∀ sep ∈ separators, isSubstring sep s = false) :
    parse_date_range y s = (parse_date y s, parse_date y s) :=
  parse_date_range_no_sep y s h

/-- Witness for C7 at a concrete separator-free input. -/
theorem C7_no_separator_witness :
    parse_date_range 2025 "Nov 14, 2025".toList =
      (parse_date 2025 "Nov 14, 2025".toList,
       parse_date 2025 "Nov 14, 2025".toList) :=
  C7_no_separator_single_date 2025 _ (by decide)

/-- Claim C8: the three price patterns are tried in a fixed order — for
every text in which the two-sided range pattern matches, the range form is
returned whatever else matches; `Tickets $20-$65, rush $10` (where the bare
pattern also matches) yields the range, `Starting at $5` yields the
minimum form, and a text with no pattern yields none. -/
theorem C8_price_precedence :
    (∀ t a b, searchRange t = some (a, b) →
      extract_price_range t = some ('$' :: a ++ '-' :: '$' :: b)) ∧
    extract_price_range "Tickets $20-$65, rush $10".toList = some "$20-$65".toList ∧
    extract_price_range "Starting at $5".toList = some "$5+".toList ∧
    extract_price_range "no price info".toList = none := by
  refine ⟨?_, by decide, by decide, by decide⟩
  intro t a b h
  cases t with
  | nil => simp [searchRange] at h
  | cons c cs => rw [extract_price_range, if_neg (by simp), h]

/-- Witness for C8: the precedence conjunct applied at the concrete text
whose bare price also matches. -/
theorem C8_price_witness :
    extract_price_range "Tickets $20-$65, rush $10".toList =
      some ('$' :: "20".toList ++ '-' :: '$' :: "65".toList) :=
  C8_price_precedence.1 _ "20".toList "65".toList (by decide)

/-- Claim C9: evaluation at the failing input.  The claim asserts absent
date sub-fields are omitted from the serialized `dates` mapping, but
`Show.to_dict` copies the `asdict` image of the dates verbatim, so the
absent end and schedule appear as nulls; the never-called
`ShowDates.to_dict` is the serializer that would omit them. -/
theorem C9_dates_nulls_not_omitted :
    Show.to_dict showWithOpenDates =
      [("theater_name".toList, JValue.jstr "New York Theatre Workshop".toList),
       ("theater_url".toList, JValue.jstr "https://www.nytw.org".toList),
       ("show_title".toList, JValue.jstr "Hamlet".toList),
       ("dates".toList, JValue.jobj
         [("start".toList, JValue.jstr "2025-01-01".toList),
          ("end".toList, JValue.jnull),
          ("schedule".toList, JValue.jnull)]),
       ("status".toList, JValue.jstr "upcoming".toList),
       ("scraped_at".toList, JValue.jstr "2025-06-01T12:00:00".toList),
       ("scraper_version".toList, JValue.jstr "1.0".toList)] ∧
    ShowDates.to_dict { start := some "2025-01-01".toList } =
      [("start".toList, JValue.jstr "2025-01-01".toList)] :=
  ⟨rfl, rfl⟩

/-- Claim C10 counterexample: `clean_text` is not idempotent.  Entity
decoding runs after whitespace collapsing, so one pass maps the
non-breaking-space entity to a lone space and only a second pass strips
it. -/
theorem C10_counterexample :
    clean_text (clean_text "&nbsp;".toList) ≠ clean_text "&nbsp;".toList := by
  decide

/-- Claim C10 as amended: `clean_text` is idempotent on every input free
of the entity ampersand; in general an `&nbsp;` decoded on the first pass
leaves whitespace that only the next pass collapses and strips. -/
theorem C10_idempotent_without_entities (t : List Char) (h : '&' ∉ t) :
    clean_text (clean_text t) = clean_text t := by
  by_cases ht : t = []
  · subst ht; rfl
  · have h1 : '&' ∉ strip (collapse t) := by
      intro hmem
      rcases mem_collapse (mem_of_mem_strip hmem) with h2 | h2
      · exact h h2
      · exact absurd h2 (by decide)
    rw [clean_text_eq_of_no_amp ht h1]
    by_cases hr : strip (collapse t) = []
    · rw [hr]; rfl
    · have hcr : collapse (strip (collapse t)) = strip (collapse t) :=
        collapse_strip (collapse_idem t)
      have h2 : '&' ∉ strip (collapse (strip (collapse t))) := by
        rw [hcr, strip_idem]; exact h1
      rw [clean_text_eq_of_no_amp hr h2, hcr, strip_idem]

/-- Witness for C10 at a concrete ampersand-free input with collapsible
whitespace. -/
theorem C10_idempotence_witness :
    clean_text (clean_text "  hello   world ".toList) =
      clean_text "  hello   world ".toList :=
  C10_idempotent_without_entities _ (by decide)
